import Mathlib

/-!
# Verification of the reformado_bot update-dispatch and response-delivery pipeline

Shallow embedding of the pipeline implemented in `src/main.py` (polling
revision) and `src/api/index.py` (webhook revision):

* text is modelled as `List Char` (Python `str` indexing/slicing becomes
  `List.drop`/`List.take`);
* wall-clock timestamps (`time.time()`) are modelled as `ℚ`;
* the global mutable throttling state (`_user_last_request` and
  `_rate_limit_calls`) is modelled as an explicit `RLState` value threaded
  through the handlers;
* calls to external collaborators (Telegram sends, typing indicators, the
  Gemini backend) are recorded as events in an output trace, with the
  backend's success/failure supplied as an `Except` parameter.
-/

set_option maxRecDepth 8000

namespace ReformadoBot

/-! ## Python string helpers -/

/-- Default whitespace characters stripped by Python's `str.strip()`
(space, `\t`, `\n`, `\r`, vertical tab, form feed; the further Unicode
whitespace handled by Python is irrelevant to this code base). -/
def isWS (c : Char) : Bool :=
  c == ' ' || c == '\t' || c == '\n' || c == '\r' ||
  c == Char.ofNat 11 || c == Char.ofNat 12

/-- Python `str.strip()` on a list of characters. -/
def stripL (l : List Char) : List Char :=
  ((l.dropWhile isWS).reverse.dropWhile isWS).reverse

/-- Python slice `text[s:e]` (indices clamped like Python slicing). -/
def sliceL (l : List Char) (s e : Nat) : List Char :=
  (l.drop s).take (e - s)

/-- Python `str.strip()` on a `String`. -/
def stripStr (s : String) : String :=
  ⟨stripL s.toList⟩

/-- Python substring containment `needle in hay` on character lists. -/
def containsSub (needle : List Char) : List Char → Bool
  | [] => needle.isEmpty
  | c :: rest => needle.isPrefixOf (c :: rest) || containsSub needle rest

/-! ## Chunker: `_chunk_text` (src/main.py lines 188–209)

```python
def _chunk_text(text: str, max_chars: int) -> list[str]:
    text = text.strip()
    if not text:
        return ["(respuesta vacía)"]
    chunks = []
    start = 0
    length = len(text)
    while start < length:
        end = min(start + max_chars, length)
        if end < length:
            pivot = max(text.rfind("\n", start, end), text.rfind(". ", start, end))
            if pivot > start + 200:
                end = pivot + (0 if text[pivot] == "\n" else 1)
        chunks.append(text[start:end].strip())
        start = end
    return chunks
```
-/

/-- Scans indices `s + k - 1, …, s + 1, s` downward and returns the largest
index satisfying `p`, as an `Int`, or `-1` when none does.  This is the
search kernel of Python's `str.rfind` restricted to a slice. -/
def searchDown (p : Nat → Bool) (s : Nat) : Nat → Int
  | 0 => -1
  | k + 1 => if p (s + k) then ((s + k : Nat) : Int) else searchDown p s k

/-- Python `text.rfind("\n", s, e)`: the candidate positions are
`s, …, e - 1`. -/
def rfindNl (t : List Char) (s e : Nat) : Int :=
  searchDown (fun i => t.get? i == some '\n') s (e - s)

/-- Python `text.rfind(". ", s, e)`: an occurrence at `p` must fit inside
the slice, so the candidate positions are `s, …, e - 2`. -/
def rfindDot (t : List Char) (s e : Nat) : Int :=
  searchDown (fun i => t.get? i == some '.' && t.get? (i + 1) == some ' ') s (e - s - 1)

/-- One iteration of the chunking loop: the cut position chosen for the
window starting at `start` (the value of `end` when the loop body reaches
`chunks.append`). -/
def computeEnd (t : List Char) (maxChars start : Nat) : Nat :=
  let e := min (start + maxChars) t.length
  if e < t.length then
    let pivot := max (rfindNl t start e) (rfindDot t start e)
    if (start : Int) + 200 < pivot then
      pivot.toNat + (if t.get? pivot.toNat == some '\n' then 0 else 1)
    else e
  else e

/-- The `while start < length` loop of `_chunk_text`, with explicit fuel.
`t.length - start ≤ fuel` makes the fuel sufficient because every
iteration strictly advances `start` (proved below). -/
def chunkLoop (t : List Char) (maxChars : Nat) : Nat → Nat → List (List Char)
  | 0, _ => []
  | fuel + 1, start =>
    if start < t.length then
      let e := computeEnd t maxChars start
      stripL (sliceL t start e) :: chunkLoop t maxChars fuel e
    else []

/-- The placeholder chunk returned for an input that is empty after
stripping. -/
def emptyPlaceholder : List Char := "(respuesta vacía)".toList

/-- The full `_chunk_text(text, max_chars)` function. -/
def chunk_text (text : List Char) (maxChars : Nat) : List (List Char) :=
  let t := stripL text
  if t.isEmpty then [emptyPlaceholder]
  else chunkLoop t maxChars t.length 0

/-! ## Rate limiter: `rate_limit` (src/main.py lines 152–185)

The module-level globals
```python
_user_last_request: dict[int, float] = {}
_rate_limit_calls = 0
```
become the fields of `RLState`.  There is a single such state for the whole
process: every handler decorated with `@rate_limit(...)` consults and
updates the same map, keyed by user id alone. -/

/-- The shared mutable throttling state. -/
structure RLState where
  lastReq : List (Int × ℚ)
  calls : Nat
deriving DecidableEq, Repr

/-- Lookup `_user_last_request.get(u)` — `none` when the user has no
record. -/
def rlGet (m : List (Int × ℚ)) (u : Int) : Option ℚ :=
  (m.find? (fun p => p.1 == u)).map (fun p => p.2)

/-- Assignment `_user_last_request[u] = v` (dict update; lookup semantics
of the resulting association list agree with the Python dict). -/
def rlSet (m : List (Int × ℚ)) (u : Int) (v : ℚ) : List (Int × ℚ) :=
  (u, v) :: m.filter (fun p => !(p.1 == u))

/-- The body of the `rate_limit` decorator's wrapper up to the decision of
whether to run the wrapped handler: returns the decision together with the
updated shared state.

```python
last = _user_last_request.get(user_id, 0.0)
if now - last < seconds:
    return
_user_last_request[user_id] = now
_rate_limit_calls += 1
if _rate_limit_calls % 250 == 0:
    cutoff = now - max(60, seconds * 30)
    stale = [uid for uid, ts in _user_last_request.items() if ts < cutoff]
    for uid in stale:
        _user_last_request.pop(uid, None)
```
-/
def rate_limit_check (st : RLState) (u : Int) (now seconds : ℚ) : Bool × RLState :=
  let last := (rlGet st.lastReq u).getD 0
  if now - last < seconds then (false, st)
  else
    let m1 := rlSet st.lastReq u now
    let calls1 := st.calls + 1
    let m2 :=
      if calls1 % 250 == 0 then
        m1.filter (fun p => !(decide (p.2 < now - max 60 (seconds * 30))))
      else m1
    (true, ⟨m2, calls1⟩)

/-! ## Observable events of the handlers -/

/-- Fixed model identifiers bound at startup (src/main.py lines 55–63). -/
def modelFlash : String := "gemini-3-flash-preview"

/-- The privileged-tier model identifier. -/
def modelPro : String := "gemini-3-pro-preview"

/-- The model identifier of the webhook revision (src/api/index.py). -/
def apiModel : String := "gemini-2.5-flash"

/-- One observable call to an external collaborator, in order. `genCall`
records an invocation of `gemini_generate` with the chosen model and
prompt; `send` records a user-visible message (delivered through
`send_safe_html` or `reply_text`); `typing` records
`send_chat_action(..., TYPING)`. -/
inductive Ev
  | typing
  | genCall (model : String) (prompt : String)
  | send (text : String)
deriving DecidableEq, Repr

/-- Access-denied message of `/pro`. -/
def accesoDenegadoMsg : String :=
  "⛔ Acceso denegado. Este comando es solo para el administrador."

/-- Usage hint of `/pro` when no query is given. -/
def proUsageMsg : String := "🧠 Modo Pro (Gemini 3 Pro Preview)\nUso: /pro [pregunta compleja]"

/-- Error message of `/pro` on a backend failure. -/
def proErrorMsg : String := "⚠️ Error en Gemini Pro."

/-- Usage hint of `/libros` when no topic is given. -/
def librosUsageMsg : String := "📚 Uso: /libros [tema]\nEjemplo: /libros atributos de Dios"

/-- Error message of `/libros` on a backend failure. -/
def librosErrorMsg : String := "⚠️ Error consultando la biblioteca."

/-- Error message of the free-text chat handler on a backend failure
(src/main.py line 414). -/
def chatErrorMsg : String := "⚠️ Hubo un error procesando tu mensaje."

/-- Prompt built by `recomendar_libros`; the Python repr conversion of
`tema` is modelled as single-quote (escaped here as x27) wrapping, which
is exact for topics without quotes or escapes. -/
def librosPrompt (tema : String) : String :=
  "Recomienda 3 a 5 libros de sana doctrina (Reformada/Puritana/Bautista Reformada) " ++
  "sobre: \x27" ++ tema ++ "\x27.\n" ++
  "- Incluye: título, autor, y 1 razón breve.\n" ++
  "- Evita autores de prosperidad o liberales.\n" ++
  "- Si recomiendas un libro controversial, adviértelo.\n"

/-- Prompt built by `manejar_mensajes` around the stripped user text. -/
def chatPrompt (texto : String) : String :=
  "Responde como asistente teológico reformado, con Biblia como autoridad.\n" ++
  "Reglas:\n" ++
  "- Sé directo, pastoral.\n" ++
  "- Incluye 1–3 textos bíblicos si haces afirmaciones doctrinales.\n" ++
  "- Si el usuario pide opinión prudencial, marca que es prudencia.\n\n" ++
  "Usuario dice/pregunta:\n" ++ texto

/-! ## Trigger resolver: `is_mentioned_in_group` (src/main.py lines 239–246)

```python
def is_mentioned_in_group(update, bot_username):
    """In groups: respond ONLY if message contains @bot_username.
    Replies to the bot do NOT trigger responses."""
    if not update.message or not update.message.text or not bot_username:
        return False
    return f"@{bot_username}" in update.message.text
```
`msgText = none` models a missing message or missing text; the empty
string is falsy in Python, hence the extra emptiness tests. -/
def is_mentioned_in_group (msgText : Option String) (botUsername : Option String) : Bool :=
  match msgText, botUsername with
  | some t, some b =>
    if t = "" then false
    else if b = "" then false
    else containsSub ('@' :: b.toList) t.toList
  | _, _ => false

/-! ## Command handlers -/

/-- Canonicalization used by `consulta_pro`:
`str(update.effective_user.id) if update.effective_user else ""`. -/
def canonId : Option Int → String
  | some i => toString i
  | none => ""

/-- The `/pro` handler `consulta_pro` (src/main.py lines 351–373).  Note
that this handler carries no `@rate_limit` decorator.  `ownerId` is
`str(CONFIG.owner_id)` (already a string, so `str` is the identity);
`hasChat` models `update.effective_chat` being present (it only gates the
typing indicator); `backend` is the outcome of `gemini_generate`. -/
def consulta_pro (uid : Option Int) (ownerId : String) (args : List String)
    (hasChat : Bool) (backend : Except Unit String) : List Ev :=
  let user_id := canonId uid
  if user_id ≠ ownerId then [Ev.send accesoDenegadoMsg]
  else
    let consulta := stripStr (String.intercalate " " args)
    if consulta = "" then [Ev.send proUsageMsg]
    else
      (if hasChat then [Ev.typing] else []) ++
      match backend with
      | Except.ok out => [Ev.genCall modelPro consulta, Ev.send out]
      | Except.error _ => [Ev.genCall modelPro consulta, Ev.send proErrorMsg]

/-- The `/libros` handler `recomendar_libros` (src/main.py lines 281–307),
including its `@rate_limit(seconds=5)` wrapper, which consults and updates
the shared `RLState`. -/
def recomendar_libros (st : RLState) (uid : Option Int) (now : ℚ) (args : List String)
    (hasChat : Bool) (backend : Except Unit String) : List Ev × RLState :=
  match uid with
  | none => ([], st)
  | some u =>
    let r := rate_limit_check st u now 5
    if !r.1 then ([], r.2)
    else
      let tema := stripStr (String.intercalate " " args)
      if tema = "" then ([Ev.send librosUsageMsg], r.2)
      else
        ((if hasChat then [Ev.typing] else []) ++
          match backend with
          | Except.ok out => [Ev.genCall modelFlash (librosPrompt tema), Ev.send out]
          | Except.error _ =>
            [Ev.genCall modelFlash (librosPrompt tema), Ev.send librosErrorMsg],
         r.2)

/-- Free-text chat handler `manejar_mensajes` (src/main.py lines 379–414),
including its `@rate_limit(seconds=2)` wrapper.  `chat = none` models a
missing `update.effective_chat` (the chat type then defaults to
`"private"`); `replyToBot` records whether the update is a reply to a
message authored by the bot — the source receives this information inside
`update` but never reads it, hence the unused parameter. -/
def manejar_mensajes (st : RLState) (uid : Option Int) (now : ℚ) (msg : Option String)
    (chat : Option String) (botUsername : Option String) (replyToBot : Bool)
    (backend : Except Unit String) : List Ev × RLState :=
  match uid with
  | none => ([], st)
  | some u =>
    let r := rate_limit_check st u now 2
    if !r.1 then ([], r.2)
    else
      match msg with
      | none => ([], r.2)
      | some t =>
        if t = "" then ([], r.2)
        else
          let chatType := chat.getD "private"
          let texto := stripStr t
          let es_privado := chatType == "private"
          let es_mencion := is_mentioned_in_group (some t) botUsername
          if !(es_privado || es_mencion) then ([], r.2)
          else
            ((if chat.isSome then [Ev.typing] else []) ++
              match backend with
              | Except.ok out => [Ev.genCall modelFlash (chatPrompt texto), Ev.send out]
              | Except.error _ =>
                [Ev.genCall modelFlash (chatPrompt texto), Ev.send chatErrorMsg],
             r.2)

/-- The free-text handler of the webhook revision, `mensaje_general`
(src/api/index.py lines 79–87): responds only in private chats, has no
rate limiting, and on a backend failure only logs — no message is sent.
The prompt is the raw message text. -/
def mensaje_general (chatType : String) (msgText : String)
    (backend : Except Unit String) : List Ev :=
  if chatType == "private" then
    Ev.typing ::
    match backend with
    | Except.ok out => [Ev.genCall apiModel msgText, Ev.send out]
    | Except.error _ => [Ev.genCall apiModel msgText]
  else []

/-! ## Delivery layer: `send_safe_html` (src/main.py lines 212–226)

```python
chunks = _chunk_text(text, CONFIG.max_msg_chars)
for piece in chunks:
    safe = html.escape(piece)
    try:
        await update.message.reply_text(safe, parse_mode=ParseMode.HTML)
    except BadRequest:
        await update.message.reply_text(piece)
```
The platform's reaction to each attempt is an oracle indexed by chunk
position: `rich i` is the outcome of the HTML-mode attempt on chunk `i`
(`raised` is any exception other than `BadRequest`), and `plain i` tells
whether the fallback plain-text attempt succeeds.  An exception escaping
the loop propagates to the caller, so the remaining chunks are never
attempted. -/

/-- Outcome of a rich-formatting (HTML parse mode) send attempt. -/
inductive SendRes
  | ok
  | badRequest
  | raised
deriving DecidableEq, Repr

/-- A send attempt actually issued to the platform, in order. -/
inductive DEv
  | rich (i : Nat)
  | plain (i : Nat)
deriving DecidableEq, Repr

/-- The delivery loop of `send_safe_html` over an already-chunked list,
starting at chunk index `i`. -/
def deliverLoop (richRes : Nat → SendRes) (plainOk : Nat → Bool) :
    List (List Char) → Nat → List DEv
  | [], _ => []
  | _ :: rest, i =>
    DEv.rich i ::
    match richRes i with
    | SendRes.ok => deliverLoop richRes plainOk rest (i + 1)
    | SendRes.badRequest =>
      DEv.plain i ::
      (if plainOk i then deliverLoop richRes plainOk rest (i + 1) else [])
    | SendRes.raised => []

/-- Entry point `send_safe_html(update, text)`: chunk with `_chunk_text`,
then run the delivery loop from index 0. -/
def send_safe_html (text : List Char) (maxChars : Nat)
    (richRes : Nat → SendRes) (plainOk : Nat → Bool) : List DEv :=
  deliverLoop richRes plainOk (chunk_text text maxChars) 0

/-- Non-whitespace characters: the content that stripping can never
remove. -/
def nonWS (c : Char) : Bool := !(isWS c)

/-! ## Helper lemmas about the chunker -/

theorem searchDown_spec (p : Nat → Bool) (s : Nat) :
    ∀ k, searchDown p s k = -1 ∨
      ∃ j : Nat, searchDown p s k = (j : Int) ∧ s ≤ j ∧ j < s + k ∧ p j = true
  | 0 => Or.inl rfl
  | k + 1 => by
    unfold searchDown
    by_cases h : p (s + k) = true
    · exact Or.inr ⟨s + k, by simp [h], Nat.le_add_right _ _, by omega, h⟩
    · rcases searchDown_spec p s k with h' | ⟨j, hj, h1, h2, h3⟩
      · simp [h, h']
      · exact Or.inr ⟨j, by simp [h, hj], h1, by omega, h3⟩

theorem computeEnd_bounds (t : List Char) (m start : Nat) (hm : 1 ≤ m)
    (hs : start < t.length) :
    start < computeEnd t m start ∧ computeEnd t m start ≤ t.length ∧
      computeEnd t m start ≤ start + m := by
  unfold computeEnd
  have he1 : start < min (start + m) t.length := lt_min (by omega) hs
  have he2 : min (start + m) t.length ≤ t.length := min_le_right _ _
  have he3 : min (start + m) t.length ≤ start + m := min_le_left _ _
  by_cases hcut : min (start + m) t.length < t.length
  · simp only [hcut, if_true]
    by_cases hsnap : (start : Int) + 200 <
        max (rfindNl t start (min (start + m) t.length))
          (rfindDot t start (min (start + m) t.length))
    · simp only [hsnap, if_true]
      rcases max_choice (rfindNl t start (min (start + m) t.length))
          (rfindDot t start (min (start + m) t.length)) with hmx | hmx
      · -- the pivot came from the newline search
        rw [hmx] at hsnap ⊢
        rcases searchDown_spec (fun i => t.get? i == some '\n') start
            (min (start + m) t.length - start) with hnone | ⟨j, hj, hj1, hj2, hj3⟩
        · rw [rfindNl, hnone] at hsnap; omega
        · have hj3' : (t.get? j == some '\n') = true := hj3
          rw [rfindNl, hj] at hsnap ⊢
          have hjlt : j < min (start + m) t.length := by omega
          have hjs : start + 200 < j := by exact_mod_cast hsnap
          rw [Int.toNat_natCast]
          simp only [hj3', if_true]
          omega
      · -- the pivot came from the ". " search
        rw [hmx] at hsnap ⊢
        rcases searchDown_spec
            (fun i => t.get? i == some '.' && t.get? (i + 1) == some ' ') start
            (min (start + m) t.length - start - 1) with hnone | ⟨j, hj, hj1, hj2, hj3⟩
        · rw [rfindDot, hnone] at hsnap; omega
        · have hj3' : (t.get? j == some '.' && t.get? (j + 1) == some ' ') = true := hj3
          rw [rfindDot, hj] at hsnap ⊢
          have hjlt : j + 1 < min (start + m) t.length := by omega
          have hjs : start + 200 < j := by exact_mod_cast hsnap
          have hdot : t.get? j = some '.' := by
            have := (Bool.and_eq_true _ _).mp hj3'
            exact beq_iff_eq.mp this.1
          have hfalse : (t.get? j == some '\n') = false := by
            rw [hdot]; decide
          rw [Int.toNat_natCast]
          simp only [hfalse, Bool.false_eq_true, if_false]
          omega
    · simp only [hsnap, if_false]
      exact ⟨he1, he2, he3⟩
  · simp only [hcut, if_false]
    exact ⟨he1, he2, he3⟩

theorem chunkLoop_nil_of_le (t : List Char) (m : Nat) (start : Nat)
    (h : t.length ≤ start) : ∀ fuel, chunkLoop t m fuel start = [] := by
  intro fuel
  cases fuel with
  | zero => rfl
  | succ f => simp only [chunkLoop, if_neg (by omega : ¬ start < t.length)]

theorem chunkLoop_fuel_irrel (t : List Char) (m : Nat) (hm : 1 ≤ m) :
    ∀ f₁ f₂ start, t.length - start ≤ f₁ → t.length - start ≤ f₂ →
      chunkLoop t m f₁ start = chunkLoop t m f₂ start := by
  intro f₁
  induction f₁ with
  | zero =>
    intro f₂ start h1 _
    rw [chunkLoop_nil_of_le t m start (by omega) 0,
      chunkLoop_nil_of_le t m start (by omega) f₂]
  | succ f ih =>
    intro f₂ start h1 h2
    by_cases hs : start < t.length
    · obtain ⟨f', rfl⟩ : ∃ f', f₂ = f' + 1 := ⟨f₂ - 1, by omega⟩
      have hb := computeEnd_bounds t m start hm hs
      simp only [chunkLoop, if_pos hs]
      rw [ih f' (computeEnd t m start) (by omega) (by omega)]
    · rw [chunkLoop_nil_of_le t m start (by omega) (f + 1),
        chunkLoop_nil_of_le t m start (by omega) f₂]

theorem filter_dropWhile_isWS (l : List Char) :
    (l.dropWhile isWS).filter nonWS = l.filter nonWS := by
  induction l with
  | nil => rfl
  | cons c cs ih =>
    by_cases h : isWS c = true
    · rw [List.dropWhile_cons, if_pos h, ih, List.filter_cons,
        if_neg (by simp [nonWS, h])]
    · rw [List.dropWhile_cons, if_neg h]

theorem filter_stripL (l : List Char) :
    (stripL l).filter nonWS = l.filter nonWS := by
  unfold stripL
  rw [List.filter_reverse, filter_dropWhile_isWS, List.filter_reverse,
    List.reverse_reverse, filter_dropWhile_isWS]

theorem length_stripL_le (l : List Char) : (stripL l).length ≤ l.length := by
  unfold stripL
  have h1 : ∀ (xs : List Char), (xs.dropWhile isWS).length ≤ xs.length := by
    intro xs
    induction xs with
    | nil => simp
    | cons a as ih =>
      rw [List.dropWhile_cons]
      by_cases h : isWS a = true
      · rw [if_pos h]; simp; omega
      · rw [if_neg h]

  calc ((((l.dropWhile isWS).reverse).dropWhile isWS).reverse).length
      = (((l.dropWhile isWS).reverse).dropWhile isWS).length := List.length_reverse _
    _ ≤ ((l.dropWhile isWS).reverse).length := h1 _
    _ = (l.dropWhile isWS).length := List.length_reverse _
    _ ≤ l.length := h1 _

theorem sliceL_append_drop (t : List Char) (s e : Nat) (h : s ≤ e) :
    sliceL t s e ++ t.drop e = t.drop s := by
  unfold sliceL
  have h2 : (t.drop s).drop (e - s) = t.drop e := by
    rw [List.drop_drop]
    congr 1
    omega
  rw [← h2]
  exact List.take_append_drop (e - s) (t.drop s)

theorem chunkLoop_flatten_filter (t : List Char) (m : Nat) (hm : 1 ≤ m) :
    ∀ fuel start, t.length - start ≤ fuel →
      ((chunkLoop t m fuel start).flatten).filter nonWS =
        (t.drop start).filter nonWS := by
  intro fuel
  induction fuel with
  | zero =>
    intro start h
    rw [chunkLoop_nil_of_le t m start (by omega) 0,
      List.drop_eq_nil_of_le (by omega)]
    rfl
  | succ f ih =>
    intro start h
    by_cases hs : start < t.length
    · have hb := computeEnd_bounds t m start hm hs
      simp only [chunkLoop, if_pos hs, List.flatten_cons, List.filter_append]
      rw [filter_stripL, ih (computeEnd t m start) (by omega),
        ← List.filter_append, sliceL_append_drop t start _ (by omega)]
    · rw [chunkLoop_nil_of_le t m start (by omega) (f + 1),
        List.drop_eq_nil_of_le (by omega)]
      rfl

theorem chunkLoop_length_le (t : List Char) (m : Nat) (hm : 1 ≤ m) :
    ∀ fuel start c, c ∈ chunkLoop t m fuel start → c.length ≤ m := by
  intro fuel
  induction fuel with
  | zero => intro start c hc; simp [chunkLoop] at hc
  | succ f ih =>
    intro start c hc
    by_cases hs : start < t.length
    · have hb := computeEnd_bounds t m start hm hs
      simp only [chunkLoop, if_pos hs, List.mem_cons] at hc
      rcases hc with rfl | hc
      · calc (stripL (sliceL t start (computeEnd t m start))).length
            ≤ (sliceL t start (computeEnd t m start)).length := length_stripL_le _
          _ ≤ m := by
              unfold sliceL
              rw [List.length_take]
              omega
      · exact ih _ c hc
    · rw [chunkLoop_nil_of_le t m start (by omega) (f + 1)] at hc
      simp at hc

/-! ## Claim C10: termination of the chunking loop -/

/-- C10: for every input string and every `max_chars ≥ 1` the chunking
loop of `_chunk_text` terminates: whenever `start < length`, the chosen
cut `computeEnd` strictly exceeds `start` (the raw cut
`min(start + max_chars, length)` does, and a snapped break point is only
accepted when it lies more than 200 characters past `start`), so the loop
result is independent of any sufficiently large fuel. -/
theorem claim_chunk_loop_termination (t : List Char) (m : Nat) (hm : 1 ≤ m) :
    (∀ start, start < t.length →
      start < computeEnd t m start ∧ computeEnd t m start ≤ t.length) ∧
    (∀ f₁ f₂, t.length ≤ f₁ → t.length ≤ f₂ →
      chunkLoop t m f₁ 0 = chunkLoop t m f₂ 0) := by
  constructor
  · intro s hs
    have h := computeEnd_bounds t m s hm hs
    exact ⟨h.1, h.2.1⟩
  · intro f₁ f₂ h1 h2
    exact chunkLoop_fuel_irrel t m hm f₁ f₂ 0 (by omega) (by omega)

/-- Witness instantiating `claim_chunk_loop_termination` at `"ab"`,
`max_chars = 1`. -/
theorem claim_chunk_loop_termination_witness :
    (0 < computeEnd ("ab".toList) 1 0 ∧
      computeEnd ("ab".toList) 1 0 ≤ ("ab".toList).length) ∧
    chunkLoop ("ab".toList) 1 2 0 = chunkLoop ("ab".toList) 1 5 0 :=
  ⟨(claim_chunk_loop_termination ("ab".toList) 1 (by decide)).1 0 (by decide),
   (claim_chunk_loop_termination ("ab".toList) 1 (by decide)).2 2 5 (by decide) (by decide)⟩

/-! ## Claim C4: chunk concatenation preserves non-whitespace content -/

/-- C4 counterexample: at the input `""` (empty after trimming) and limit
`1`, `_chunk_text` returns the placeholder segment, whose non-whitespace
characters are not content of the input, so concatenating the segments
does not reconstruct the (empty) non-whitespace content of the input. -/
theorem claim_content_preserved_cex :
    ¬ (((chunk_text ("".toList) 1).flatten).filter nonWS =
        ("".toList).filter nonWS) := by decide

/-- C4 amended: for every input whose content is not pure whitespace (so
the placeholder branch is not taken) and every limit `≥ 1`, concatenating
the segments of `_chunk_text` and ignoring whitespace reconstructs exactly
the non-whitespace content of the input, in order. -/
theorem claim_content_preserved (t : List Char) (m : Nat) (hm : 1 ≤ m)
    (hne : stripL t ≠ []) :
    ((chunk_text t m).flatten).filter nonWS = t.filter nonWS := by
  unfold chunk_text
  rw [if_neg (by simp [List.isEmpty_iff, hne])]
  rw [chunkLoop_flatten_filter (stripL t) m hm (stripL t).length 0 (by omega),
    List.drop_zero, filter_stripL]

/-- Witness instantiating `claim_content_preserved` at `"a b"`,
`max_chars = 2`. -/
theorem claim_content_preserved_witness :
    ((chunk_text ("a b".toList) 2).flatten).filter nonWS =
      ("a b".toList).filter nonWS :=
  claim_content_preserved ("a b".toList) 2 (by decide) (by decide)

/-! ## Claim C5: shape of the chunk sequence -/

/-- C5 counterexample: on the input `"a    b"` (not blank, so the
placeholder case does not apply) with limit `2`, `_chunk_text` yields a
segment that is empty after trimming — the middle window falls entirely
inside the whitespace run — refuting "no segment is empty after
trimming". -/
theorem claim_chunk_shape_cex :
    ([] : List Char) ∈ chunk_text ("a    b".toList) 2 ∧
      stripL ("a    b".toList) ≠ [] := by decide

/-- C5 amended: for every input and every `max_chars ≥ 1` the result of
`_chunk_text` is a finite non-empty ordered sequence; an input that is
empty after trimming yields exactly one placeholder segment; for any other
input every segment's length is at most `max_chars` — but segments can be
empty after trimming (when a whole window falls inside a whitespace run),
contrary to the original claim. -/
theorem claim_chunk_shape (t : List Char) (m : Nat) (hm : 1 ≤ m) :
    chunk_text t m ≠ [] ∧
    (stripL t = [] → chunk_text t m = [emptyPlaceholder]) ∧
    (stripL t ≠ [] → ∀ c ∈ chunk_text t m, c.length ≤ m) := by
  refine ⟨?_, ?_, ?_⟩
  · unfold chunk_text
    by_cases h : (stripL t).isEmpty = true
    · rw [if_pos h]
      exact List.cons_ne_nil _ _
    · rw [if_neg h]
      have hlen : 0 < (stripL t).length := by
        cases hst : stripL t with
        | nil => rw [hst] at h; simp at h
        | cons a l => simp
      obtain ⟨k, hk⟩ : ∃ k, (stripL t).length = k + 1 :=
        ⟨(stripL t).length - 1, by omega⟩
      rw [hk]
      simp only [chunkLoop, if_pos hlen]
      exact List.cons_ne_nil _ _
  · intro h
    unfold chunk_text
    rw [if_pos (by simp [List.isEmpty_iff, h])]
  · intro hne c hc
    unfold chunk_text at hc
    rw [if_neg (by simp [List.isEmpty_iff, hne])] at hc
    exact chunkLoop_length_le (stripL t) m hm _ 0 c hc

/-- Witness instantiating `claim_chunk_shape` at `"  hola  "`,
`max_chars = 3`. -/
theorem claim_chunk_shape_witness :
    chunk_text ("  hola  ".toList) 3 ≠ [] ∧
    (stripL ("  hola  ".toList) = [] →
      chunk_text ("  hola  ".toList) 3 = [emptyPlaceholder]) ∧
    (stripL ("  hola  ".toList) ≠ [] →
      ∀ c ∈ chunk_text ("  hola  ".toList) 3, c.length ≤ 3) :=
  claim_chunk_shape ("  hola  ".toList) 3 (by decide)

/-! ## Helper lemmas about the rate limiter -/

theorem rate_limit_accept_iff (st : RLState) (u : Int) (now seconds : ℚ) :
    (rate_limit_check st u now seconds).1 = true ↔
      seconds ≤ now - ((rlGet st.lastReq u).getD 0) := by
  simp only [rate_limit_check]
  by_cases h : now - (rlGet st.lastReq u).getD 0 < seconds
  · rw [if_pos h]
    simp
    linarith
  · rw [if_neg h]
    simp
    linarith [not_lt.mp h]

theorem rate_limit_accept_records (st : RLState) (u : Int) (now seconds : ℚ)
    (h : (rate_limit_check st u now seconds).1 = true) :
    rlGet (rate_limit_check st u now seconds).2.lastReq u = some now := by
  simp only [rate_limit_check] at h ⊢
  by_cases hc : now - (rlGet st.lastReq u).getD 0 < seconds
  · rw [if_pos hc] at h
    simp at h
  · rw [if_neg hc]
    have hkeep : (!(decide ((now : ℚ) < now - max 60 (seconds * 30)))) = true := by
      have h60 : (0 : ℚ) < max 60 (seconds * 30) :=
        lt_of_lt_of_le (by norm_num) (le_max_left _ _)
      simp only [Bool.not_eq_true', decide_eq_false_iff_not]
      linarith
    by_cases hsweep : ((st.calls + 1) % 250 == 0) = true
    · simp only [hsweep, if_pos]
      simp only [rlSet, List.filter_cons, hkeep, if_pos]
      simp [rlGet, List.find?]
    · simp only [hsweep]
      rw [if_neg (by simp [hsweep])]
      simp [rlGet, rlSet, List.find?]

theorem rate_limit_reject_frame (st : RLState) (u : Int) (now seconds : ℚ)
    (h : (rate_limit_check st u now seconds).1 = false) :
    (rate_limit_check st u now seconds).2 = st := by
  simp only [rate_limit_check] at h ⊢
  by_cases hc : now - (rlGet st.lastReq u).getD 0 < seconds
  · rw [if_pos hc]
  · rw [if_neg hc] at h
    simp at h

/-! ## Claim C2: the rate-limit acceptance condition -/

/-- C2 counterexample: an identity with no prior record is not always
accepted.  The implementation defaults a missing record to timestamp
`0.0`, so at current time `1` with window `3` seconds the very first
action of identity `1` is throttled, refuting "the first action is never
throttled" (and with it the claimed acceptance condition). -/
theorem claim_rate_limit_cex :
    rlGet (⟨[], 0⟩ : RLState).lastReq 1 = none ∧
    (rate_limit_check ⟨[], 0⟩ 1 1 3).1 = false := by
  refine ⟨rfl, ?_⟩
  norm_num [rate_limit_check, rlGet]

/-- C2 amended: the check accepts `U` if and only if at least `W` seconds
have elapsed since `U`'s recorded timestamp, where a missing record counts
as timestamp `0.0` (hence a first action is accepted exactly when
`now ≥ W`; with epoch timestamps this is always the case in practice).  On
acceptance the current time is recorded for `U`; on rejection the state is
unchanged and the action is silently dropped — the free-text handler
produces no events at all. -/
theorem claim_rate_limit_window : ∀ (st : RLState) (u : Int) (now seconds : ℚ),
    ((rate_limit_check st u now seconds).1 = true ↔
      seconds ≤ now - ((rlGet st.lastReq u).getD 0)) ∧
    ((rate_limit_check st u now seconds).1 = true →
      rlGet (rate_limit_check st u now seconds).2.lastReq u = some now) ∧
    ((rate_limit_check st u now seconds).1 = false →
      (rate_limit_check st u now seconds).2 = st) ∧
    ((rate_limit_check st u now 2).1 = false →
      ∀ msg chat bu rtb bk,
        manejar_mensajes st (some u) now msg chat bu rtb bk = ([], st)) := by
  intro st u now seconds
  refine ⟨rate_limit_accept_iff st u now seconds,
    rate_limit_accept_records st u now seconds,
    rate_limit_reject_frame st u now seconds, ?_⟩
  intro h msg chat bu rtb bk
  have hst := rate_limit_reject_frame st u now 2 h
  simp [manejar_mensajes, h, hst]

/-- Witness instantiating `claim_rate_limit_window` at the empty state,
identity `1`, time `1000`, window `3`: the action is accepted and the
time is recorded. -/
theorem claim_rate_limit_window_witness :
    (rate_limit_check ⟨[], 0⟩ 1 1000 3).1 = true ∧
    rlGet (rate_limit_check ⟨[], 0⟩ 1 1000 3).2.lastReq 1 = some 1000 :=
  have hacc : (rate_limit_check ⟨[], 0⟩ 1 1000 3).1 = true :=
    (claim_rate_limit_window ⟨[], 0⟩ 1 1000 3).1.mpr (by norm_num [rlGet])
  ⟨hacc, (claim_rate_limit_window ⟨[], 0⟩ 1 1000 3).2.1 hacc⟩

/-! ## Claim C9: cooldowns are not kept per action class -/

/-- C9 counterexample: there is a single shared cooldown map for all
throttled action classes.  Identity `7`'s `/libros` command is accepted at
time `1000` (a backend call happens); a free-text chat message from the
same identity at time `1001` is then silently dropped, although the chat
class had no prior record of its own — the `/libros` acceptance altered
the state consulted by the chat handler, refuting per-class isolation. -/
theorem claim_cooldown_per_class_cex :
    (recomendar_libros ⟨[], 0⟩ (some 7) 1000 ["fe"] true (Except.ok "r")).1 =
      [Ev.typing, Ev.genCall modelFlash (librosPrompt "fe"), Ev.send "r"] ∧
    (recomendar_libros ⟨[], 0⟩ (some 7) 1000 ["fe"] true (Except.ok "r")).2 =
      ⟨[(7, 1000)], 1⟩ ∧
    (manejar_mensajes ⟨[(7, 1000)], 1⟩ (some 7) 1001 (some "hola")
      (some "private") none false (Except.ok "x")).1 = [] := by
  have h5 : rate_limit_check ⟨[], 0⟩ 7 1000 5 = (true, ⟨[(7, 1000)], 1⟩) := by
    norm_num [rate_limit_check, rlGet, rlSet]
  have h2 : rate_limit_check ⟨[(7, 1000)], 1⟩ 7 1001 2 =
      (false, ⟨[(7, 1000)], 1⟩) := by
    norm_num [rate_limit_check, rlGet, List.find?]
  refine ⟨?_, ?_, ?_⟩
  · simp only [recomendar_libros, h5]
    norm_num
    decide
  · simp only [recomendar_libros, h5]
    norm_num
    decide
  · simp only [manejar_mensajes, h2]
    norm_num

/-- C9 amended: all throttled action classes share the one global
cooldown map keyed by identity alone, so an action accepted in any class
at time `now` makes a later check in any other class (with window `s₂`)
accept exactly when `s₂` seconds have elapsed since `now` — the per-class
independence asserted by the original claim does not hold. -/
theorem claim_cooldown_shared_map :
    ∀ (st : RLState) (u : Int) (now s₁ now' s₂ : ℚ),
    (rate_limit_check st u now s₁).1 = true →
    ((rate_limit_check (rate_limit_check st u now s₁).2 u now' s₂).1 = true ↔
      s₂ ≤ now' - now) := by
  intro st u now s₁ now' s₂ hacc
  rw [rate_limit_accept_iff]
  rw [rate_limit_accept_records st u now s₁ hacc]
  simp

/-- Witness instantiating `claim_cooldown_shared_map`: identity `3`
accepted with window `5` at time `1000`; a window-`2` check at time
`1001` is then rejected. -/
theorem claim_cooldown_shared_map_witness :
    (rate_limit_check
      (rate_limit_check ⟨[], 0⟩ 3 1000 5).2 3 1001 2).1 ≠ true :=
  fun h =>
    absurd ((claim_cooldown_shared_map ⟨[], 0⟩ 3 1000 5 1001 2
      ((rate_limit_accept_iff ⟨[], 0⟩ 3 1000 5).mpr (by norm_num [rlGet]))).mp h)
      (by norm_num)

/-! ## Claim C1: privileged-tier access control of `/pro` -/

/-- C1: a `/pro` invocation replies with the access-denied outcome (and
nothing else) exactly when the sender's identity, canonicalized to a
string by `canonId`, differs from the configured operator identity; and
for such a sender no backend generation call of any kind is made. -/
theorem claim_pro_access :
    ∀ (uid : Option Int) (owner : String) (args : List String)
      (hasChat : Bool) (bk : Except Unit String),
    (consulta_pro uid owner args hasChat bk = [Ev.send accesoDenegadoMsg] ↔
      canonId uid ≠ owner) ∧
    (canonId uid ≠ owner →
      ∀ m p, Ev.genCall m p ∉ consulta_pro uid owner args hasChat bk) := by
  intro uid owner args hasChat bk
  have hdeny : canonId uid ≠ owner →
      consulta_pro uid owner args hasChat bk = [Ev.send accesoDenegadoMsg] := by
    intro hne
    simp only [consulta_pro]
    rw [if_pos hne]
  constructor
  · constructor
    · intro h
      by_contra heq
      simp only [consulta_pro] at h
      rw [if_neg (by simp [heq])] at h
      by_cases hq : stripStr (String.intercalate " " args) = ""
      · rw [if_pos hq] at h
        exact absurd h (by decide)
      · rw [if_neg hq] at h
        cases hasChat <;> rcases bk with out | e <;> simp at h
    · exact hdeny
  · intro hne m p hmem
    rw [hdeny hne] at hmem
    simp at hmem

/-- Witness instantiating `claim_pro_access`: sender `5` against operator
`"7"` is denied and triggers no backend call. -/
theorem claim_pro_access_witness :
    consulta_pro (some 5) "7" ["q"] true (Except.ok "r") =
      [Ev.send accesoDenegadoMsg] ∧
    ∀ m p, Ev.genCall m p ∉ consulta_pro (some 5) "7" ["q"] true (Except.ok "r") :=
  ⟨(claim_pro_access (some 5) "7" ["q"] true (Except.ok "r")).1.mpr (by decide),
   (claim_pro_access (some 5) "7" ["q"] true (Except.ok "r")).2 (by decide)⟩

/-! ## Helper lemmas about the trigger resolver -/

theorem containsSub_iff (n : List Char) :
    ∀ h : List Char, containsSub n h = true ↔ n <:+: h
  | [] => by
    simp only [containsSub, List.isEmpty_iff, List.infix_nil]
  | c :: rest => by
    rw [containsSub, Bool.or_eq_true, List.isPrefixOf_iff_prefix,
      containsSub_iff n rest, List.infix_cons_iff]

theorem is_mentioned_iff (t : String) (bu : Option String) (ht : t ≠ "") :
    is_mentioned_in_group (some t) bu = true ↔
      ∃ b, bu = some b ∧ b ≠ "" ∧ ('@' :: b.toList) <:+: t.toList := by
  cases bu with
  | none => simp [is_mentioned_in_group]
  | some b =>
    simp only [is_mentioned_in_group, if_neg ht]
    by_cases hb : b = ""
    · rw [if_pos hb]
      simp [hb]
    · rw [if_neg hb, containsSub_iff]
      constructor
      · intro h
        exact ⟨b, rfl, hb, h⟩
      · rintro ⟨b', hb', _, h⟩
        cases Option.some.inj hb'
        exact h

/-! ## Claim C3: the group trigger condition -/

/-- C3 counterexample: a group message that is a reply to a message
authored by the bot (`replyToBot = true`) but contains no
`@bot-username` mention produces no response; the identical message in a
private chat does respond (so the silence is due to the trigger logic,
not the rate limiter).  This refutes "… OR the message is a reply to a
message authored by the bot": the handler never consults the reply-to
information, as its own docstring states. -/
theorem claim_group_trigger_cex :
    (manejar_mensajes ⟨[], 0⟩ (some 1) 1000 (some "hola") (some "group")
      (some "refbot") true (Except.ok "r")).1 = [] ∧
    (manejar_mensajes ⟨[], 0⟩ (some 1) 1000 (some "hola") (some "private")
      (some "refbot") true (Except.ok "r")).1 ≠ [] := by
  have h : rate_limit_check ⟨[], 0⟩ 1 1000 2 = (true, ⟨[(1, 1000)], 1⟩) := by
    norm_num [rate_limit_check, rlGet, rlSet]
  constructor
  · simp only [manejar_mensajes, h]
    decide
  · simp only [manejar_mensajes, h]
    decide

/-- C3 amended: given a message that passes the rate limiter and has
non-empty text, the pipeline responds if and only if the chat is private,
or the message text contains the `@bot-username` substring for a
non-empty bot username.  A reply to the bot's own message does not by
itself trigger a response (the handler ignores `replyToBot`). -/
theorem claim_trigger_condition :
    ∀ (st : RLState) (u : Int) (now : ℚ) (t : String) (chat : Option String)
      (bu : Option String) (rtb : Bool) (bk : Except Unit String),
    (rate_limit_check st u now 2).1 = true → t ≠ "" →
    ((manejar_mensajes st (some u) now (some t) chat bu rtb bk).1 ≠ [] ↔
      (chat.getD "private" = "private" ∨
        ∃ b, bu = some b ∧ b ≠ "" ∧ ('@' :: b.toList) <:+: t.toList)) := by
  intro st u now t chat bu rtb bk hacc ht
  rw [← is_mentioned_iff t bu ht]
  cases htrig : ((chat.getD "private" == "private") ||
      is_mentioned_in_group (some t) bu) with
  | true =>
    have hrhs : chat.getD "private" = "private" ∨
        is_mentioned_in_group (some t) bu = true := by
      rcases (Bool.or_eq_true _ _).mp htrig with h | h
      · exact Or.inl (beq_iff_eq.mp h)
      · exact Or.inr h
    have hlhs : (manejar_mensajes st (some u) now (some t) chat bu rtb bk).1 ≠ [] := by
      simp only [manejar_mensajes, hacc, Bool.not_true, Bool.false_eq_true, if_false,
        if_neg ht, htrig]
      rcases bk with out | e <;> cases chat <;> simp
    simp [hlhs, hrhs]
  | false =>
    have h1 : (chat.getD "private" == "private") = false := by
      rcases Bool.or_eq_false_iff.mp htrig with ⟨ha, _⟩
      exact ha
    have h2 : is_mentioned_in_group (some t) bu = false :=
      (Bool.or_eq_false_iff.mp htrig).2
    have hlhs : (manejar_mensajes st (some u) now (some t) chat bu rtb bk).1 = [] := by
      simp only [manejar_mensajes, hacc, Bool.not_true, Bool.false_eq_true, if_false,
        if_neg ht, htrig]
      simp
    simp only [hlhs]
    constructor
    · intro h
      exact absurd rfl h
    · rintro (h | h)
      · rw [← beq_iff_eq (a := chat.getD "private") (b := "private")] at h
        rw [h1] at h
        exact absurd h (by decide)
      · rw [h2] at h
        exact absurd h (by decide)

/-- Witness instantiating `claim_trigger_condition` at a group message
containing the mention `@refbot`. -/
theorem claim_trigger_condition_witness :
    (manejar_mensajes ⟨[], 0⟩ (some 1) 1000 (some "hola @refbot")
      (some "group") (some "refbot") false (Except.ok "r")).1 ≠ [] :=
  (claim_trigger_condition ⟨[], 0⟩ 1 1000 "hola @refbot" (some "group")
    (some "refbot") false (Except.ok "r")
    (by norm_num [rate_limit_check, rlGet]) (by decide)).mpr
    (Or.inr ⟨"refbot", rfl, by decide, by decide⟩)

/-! ## Claim C6: side effects of a non-triggering group message -/

/-- C6 counterexample: a group message with no mention and no reply
context produces no typing indicator and no backend call, but the
sender's cooldown record IS updated: identity `1` had no record before
the message and has one (timestamp `1000`) afterwards, because the
`@rate_limit` wrapper runs before the trigger check.  This refutes "the
sender's rate-limit cooldown record is neither consumed nor updated". -/
theorem claim_group_silent_frame_cex :
    (manejar_mensajes ⟨[], 0⟩ (some 1) 1000 (some "hola") (some "group")
      (some "bot") false (Except.ok "r")).1 = [] ∧
    rlGet (⟨[], 0⟩ : RLState).lastReq 1 = none ∧
    rlGet (manejar_mensajes ⟨[], 0⟩ (some 1) 1000 (some "hola") (some "group")
      (some "bot") false (Except.ok "r")).2.lastReq 1 = some 1000 := by
  have h : rate_limit_check ⟨[], 0⟩ 1 1000 2 = (true, ⟨[(1, 1000)], 1⟩) := by
    norm_num [rate_limit_check, rlGet, rlSet]
  refine ⟨?_, rfl, ?_⟩
  · simp only [manejar_mensajes, h]
    decide
  · simp only [manejar_mensajes, h]
    decide

/-- C6 amended: handling a group-chat message that does not trigger a
response produces no events at all (no typing indicator, no backend
call, no send), but the resulting shared state is exactly the state left
by the rate-limit check, which runs before the trigger check and records
the sender's timestamp whenever the cooldown allows. -/
theorem claim_group_silent_frame :
    ∀ (st : RLState) (u : Int) (now : ℚ) (t : String) (chat : Option String)
      (bu : Option String) (rtb : Bool) (bk : Except Unit String),
    chat.getD "private" ≠ "private" →
    is_mentioned_in_group (some t) bu = false →
    manejar_mensajes st (some u) now (some t) chat bu rtb bk =
      ([], (rate_limit_check st u now 2).2) := by
  intro st u now t chat bu rtb bk hpriv hmen
  cases hacc : (rate_limit_check st u now 2).1 with
  | false => simp [manejar_mensajes, hacc]
  | true =>
    by_cases ht : t = ""
    · simp [manejar_mensajes, hacc, ht]
    · have hb : (chat.getD "private" == "private") = false :=
        beq_eq_false_iff_ne.mpr hpriv
      simp [manejar_mensajes, hacc, ht, hb, hmen]

/-- Witness instantiating `claim_group_silent_frame` at a mention-free
group message from identity `1`. -/
theorem claim_group_silent_frame_witness :
    manejar_mensajes ⟨[], 0⟩ (some 1) 1000 (some "hola") (some "group")
      (some "bot") false (Except.ok "r") =
      ([], (rate_limit_check ⟨[], 0⟩ 1 1000 2).2) :=
  claim_group_silent_frame ⟨[], 0⟩ 1 1000 "hola" (some "group") (some "bot")
    false (Except.ok "r") (by decide) (by decide)

/-! ## Claim C7: surfacing of backend failures in passive chat -/

/-- C7 counterexample: in the polling revision (`src/main.py`), a backend
failure on a passive private-chat message is NOT swallowed silently — the
handler delivers the generic error chunk to the user, refuting "no
message of any kind is delivered to the user" for the passive free-text
path. -/
theorem claim_passive_error_cex :
    Ev.send chatErrorMsg ∈ (manejar_mensajes ⟨[], 0⟩ (some 1) 1000
      (some "hola") (some "private") none false (Except.error ())).1 := by
  have h : rate_limit_check ⟨[], 0⟩ 1 1000 2 = (true, ⟨[(1, 1000)], 1⟩) := by
    norm_num [rate_limit_check, rlGet, rlSet]
  simp only [manejar_mensajes, h]
  decide

/-- C7 amended: the two revisions differ.  In the webhook revision
(`src/api/index.py`) a backend failure on passive free-text chat is
swallowed silently — no message of any kind is sent to the user.  In the
polling revision (`src/main.py`) the passive free-text handler delivers
the generic error chunk `chatErrorMsg`, exactly like the explicit
commands do. -/
theorem claim_passive_error_surface :
    (∀ (chatType msgText s : String),
      Ev.send s ∉ mensaje_general chatType msgText (Except.error ())) ∧
    (∀ (st : RLState) (u : Int) (now : ℚ) (t : String) (chat : Option String)
      (bu : Option String) (rtb : Bool),
      (rate_limit_check st u now 2).1 = true → t ≠ "" →
      (chat.getD "private" = "private" ∨ is_mentioned_in_group (some t) bu = true) →
      Ev.send chatErrorMsg ∈
        (manejar_mensajes st (some u) now (some t) chat bu rtb (Except.error ())).1) := by
  constructor
  · intro ct mt s hmem
    unfold mensaje_general at hmem
    by_cases h : (ct == "private") = true
    · rw [if_pos h] at hmem
      simp at hmem
    · rw [if_neg h] at hmem
      simp at hmem
  · intro st u now t chat bu rtb hacc ht htrig
    have htrigb : ((chat.getD "private" == "private") ||
        is_mentioned_in_group (some t) bu) = true := by
      rcases htrig with h | h
      · simp [h]
      · simp [h]
    simp only [manejar_mensajes, hacc, Bool.not_true, Bool.false_eq_true, if_false,
      if_neg ht, htrigb]
    cases chat <;> simp

/-- Witness instantiating `claim_passive_error_surface`: the webhook
handler sends nothing on a failed private-chat generation, while the
polling handler sends the error chunk. -/
theorem claim_passive_error_surface_witness :
    Ev.send "x" ∉ mensaje_general "private" "hola" (Except.error ()) ∧
    Ev.send chatErrorMsg ∈ (manejar_mensajes ⟨[], 0⟩ (some 1) 1000
      (some "hola") (some "private") none false (Except.error ())).1 :=
  ⟨claim_passive_error_surface.1 "private" "hola" "x",
   claim_passive_error_surface.2 ⟨[], 0⟩ 1 1000 "hola" (some "private") none
     false (by norm_num [rate_limit_check, rlGet]) (by decide) (Or.inl (by decide))⟩

/-! ## Helper lemmas about the delivery loop -/

theorem deliverLoop_rich_bounds (f : Nat → SendRes) (g : Nat → Bool) :
    ∀ (cs : List (List Char)) (i₀ j : Nat),
      DEv.rich j ∈ deliverLoop f g cs i₀ → i₀ ≤ j ∧ j < i₀ + cs.length := by
  intro cs
  induction cs with
  | nil =>
    intro i₀ j h
    simp [deliverLoop] at h
  | cons c rest ih =>
    intro i₀ j h
    simp only [deliverLoop, List.mem_cons] at h
    rcases h with h | h
    · cases h
      simp
    · cases hf : f i₀ with
      | ok =>
        rw [hf] at h
        have := ih (i₀ + 1) j h
        simp only [List.length_cons]
        omega
      | badRequest =>
        rw [hf] at h
        simp only [List.mem_cons] at h
        rcases h with h | h
        · exact absurd h (by simp)
        · by_cases hg : g i₀ = true
          · rw [if_pos hg] at h
            have := ih (i₀ + 1) j h
            simp only [List.length_cons]
            omega
          · rw [if_neg hg] at h
            simp at h
      | raised =>
        rw [hf] at h
        simp at h

theorem deliverLoop_plain_mem (f : Nat → SendRes) (g : Nat → Bool) :
    ∀ (cs : List (List Char)) (i₀ j : Nat),
      DEv.plain j ∈ deliverLoop f g cs i₀ →
        f j = SendRes.badRequest ∧ i₀ ≤ j ∧
          DEv.rich j ∈ deliverLoop f g cs i₀ := by
  intro cs
  induction cs with
  | nil =>
    intro i₀ j h
    simp [deliverLoop] at h
  | cons c rest ih =>
    intro i₀ j h
    simp only [deliverLoop, List.mem_cons] at h ⊢
    rcases h with h | h
    · exact absurd h (by simp)
    · cases hf : f i₀ with
      | ok =>
        rw [hf] at h
        have h' : DEv.plain j ∈ deliverLoop f g rest (i₀ + 1) := h
        have := ih (i₀ + 1) j h'
        exact ⟨this.1, by omega, Or.inr this.2.2⟩
      | badRequest =>
        rw [hf] at h
        have h' : DEv.plain j ∈ DEv.plain i₀ ::
            (if g i₀ = true then deliverLoop f g rest (i₀ + 1) else []) := h
        rcases List.mem_cons.mp h' with h'' | h''
        · cases DEv.plain.inj h''
          exact ⟨hf, le_refl _, Or.inl rfl⟩
        · by_cases hg : g i₀ = true
          · rw [if_pos hg] at h''
            have := ih (i₀ + 1) j h''
            refine ⟨this.1, by omega, Or.inr ?_⟩
            show DEv.rich j ∈ DEv.plain i₀ ::
              (if g i₀ = true then deliverLoop f g rest (i₀ + 1) else [])
            rw [if_pos hg]
            exact List.mem_cons_of_mem _ this.2.2
          · rw [if_neg hg] at h''
            simp at h''
      | raised =>
        rw [hf] at h
        have h' : DEv.plain j ∈ ([] : List DEv) := h
        simp at h'

theorem deliverLoop_plain_once (f : Nat → SendRes) (g : Nat → Bool) :
    ∀ (cs : List (List Char)) (i₀ j : Nat),
      (deliverLoop f g cs i₀).count (DEv.plain j) ≤ 1 := by
  intro cs
  induction cs with
  | nil =>
    intro i₀ j
    simp [deliverLoop]
  | cons c rest ih =>
    intro i₀ j
    simp only [deliverLoop]
    rw [List.count_cons_of_ne (by simp)]
    cases hf : f i₀ with
    | ok => exact ih (i₀ + 1) j
    | badRequest =>
      show (DEv.plain i₀ ::
        (if g i₀ = true then deliverLoop f g rest (i₀ + 1) else [])).count
          (DEv.plain j) ≤ 1
      by_cases hj : j = i₀
      · subst hj
        rw [List.count_cons_self]
        by_cases hg : g j = true
        · rw [if_pos hg, List.count_eq_zero.mpr (fun hmem =>
            absurd (deliverLoop_plain_mem f g rest (j + 1) j hmem).2.1 (by omega))]
        · rw [if_neg hg]
          simp
      · rw [List.count_cons_of_ne (by simp [hj])]
        by_cases hg : g i₀ = true
        · rw [if_pos hg]
          exact ih (i₀ + 1) j
        · rw [if_neg hg]
          simp
    | raised =>
      show (([] : List DEv)).count (DEv.plain j) ≤ 1
      simp

theorem deliverLoop_abort (f : Nat → SendRes) (g : Nat → Bool) (j : Nat)
    (hbad : f j = SendRes.badRequest) (hfail : g j = false) :
    ∀ (cs : List (List Char)) (i₀ : Nat), i₀ ≤ j →
      ∀ k, j < k → DEv.rich k ∉ deliverLoop f g cs i₀ := by
  intro cs
  induction cs with
  | nil =>
    intro i₀ _ k _ h
    simp [deliverLoop] at h
  | cons c rest ih =>
    intro i₀ hij k hjk h
    simp only [deliverLoop, List.mem_cons] at h
    rcases h with h | h
    · cases DEv.rich.inj h
      omega
    · cases hf : f i₀ with
      | ok =>
        rw [hf] at h
        have hne : i₀ ≠ j := fun he => by rw [he, hbad] at hf; cases hf
        exact ih (i₀ + 1) (by omega) k hjk h
      | badRequest =>
        rw [hf] at h
        simp only [List.mem_cons] at h
        rcases h with h | h
        · exact absurd h (by simp)
        · by_cases hg : g i₀ = true
          · have hne : i₀ ≠ j := fun he => by rw [he, hfail] at hg; cases hg
            rw [if_pos hg] at h
            exact ih (i₀ + 1) (by omega) k hjk h
          · rw [if_neg hg] at h
            simp at h
      | raised =>
        rw [hf] at h
        simp at h

theorem deliverLoop_complete (f : Nat → SendRes) (g : Nat → Bool)
    (hok : ∀ k, f k ≠ SendRes.raised ∧ (f k = SendRes.badRequest → g k = true)) :
    ∀ (cs : List (List Char)) (i₀ j : Nat), i₀ ≤ j → j < i₀ + cs.length →
      DEv.rich j ∈ deliverLoop f g cs i₀ := by
  intro cs
  induction cs with
  | nil =>
    intro i₀ j h1 h2
    simp at h2
    omega
  | cons c rest ih =>
    intro i₀ j h1 h2
    simp only [deliverLoop, List.mem_cons]
    by_cases hj : j = i₀
    · exact Or.inl (by rw [hj])
    · refine Or.inr ?_
      cases hf : f i₀ with
      | ok =>
        exact ih (i₀ + 1) j (by omega) (by simp at h2 ⊢; omega)
      | badRequest =>
        rw [(hok i₀).2 hf]
        simp only [if_true, List.mem_cons]
        exact Or.inr (ih (i₀ + 1) j (by omega) (by simp at h2 ⊢; omega))
      | raised =>
        exact absurd hf (hok i₀).1

/-! ## Claim C8: single plain-text retry, then abort -/

/-- C8 counterexample: the text `"ab"` with limit `1` produces two
chunks; the platform rejects chunk 0's rich-formatting send and the plain
retry also fails.  The exception from the plain retry is not caught, so
delivery stops: the observed attempts are exactly
`[rich 0, plain 0]` and chunk 1 is never attempted, refuting "delivery
proceeds to the next chunk rather than aborting the remainder". -/
theorem claim_delivery_retry_cex :
    send_safe_html ("ab".toList) 1
      (fun i => if i == 0 then SendRes.badRequest else SendRes.ok)
      (fun _ => false) = [DEv.rich 0, DEv.plain 0] ∧
    (chunk_text ("ab".toList) 1).length = 2 := by decide

/-- C8 amended: each chunk is first attempted in rich-formatting mode; a
plain-text retry happens at most once per chunk and only when the
platform rejected the formatting (`BadRequest`); when every rich attempt
either succeeds or is recovered by a successful plain retry, every chunk
is attempted — but if a plain retry fails, the exception propagates and
NO later chunk is attempted: delivery aborts instead of proceeding. -/
theorem claim_delivery_retry (text : List Char) (maxChars : Nat)
    (f : Nat → SendRes) (g : Nat → Bool) :
    (∀ j, DEv.plain j ∈ send_safe_html text maxChars f g →
      f j = SendRes.badRequest) ∧
    (∀ j, DEv.plain j ∈ send_safe_html text maxChars f g →
      DEv.rich j ∈ send_safe_html text maxChars f g) ∧
    (∀ j, (send_safe_html text maxChars f g).count (DEv.plain j) ≤ 1) ∧
    (∀ j, f j = SendRes.badRequest → g j = false →
      ∀ k, j < k → DEv.rich k ∉ send_safe_html text maxChars f g) ∧
    ((∀ k, f k ≠ SendRes.raised ∧ (f k = SendRes.badRequest → g k = true)) →
      ∀ j, j < (chunk_text text maxChars).length →
        DEv.rich j ∈ send_safe_html text maxChars f g) := by
  refine ⟨?_, ?_, ?_, ?_, ?_⟩
  · intro j h
    exact (deliverLoop_plain_mem f g _ 0 j h).1
  · intro j h
    exact (deliverLoop_plain_mem f g _ 0 j h).2.2
  · intro j
    exact deliverLoop_plain_once f g _ 0 j
  · intro j hbad hfail k hk
    exact deliverLoop_abort f g j hbad hfail _ 0 (Nat.zero_le j) k hk
  · intro hok j hj
    exact deliverLoop_complete f g hok _ 0 j (Nat.zero_le j) (by omega)

/-- Witness instantiating `claim_delivery_retry` with an all-successful
platform: both chunks of `"ab"` are attempted. -/
theorem claim_delivery_retry_witness :
    DEv.rich 1 ∈ send_safe_html ("ab".toList) 1
      (fun _ => SendRes.ok) (fun _ => true) :=
  (claim_delivery_retry ("ab".toList) 1 (fun _ => SendRes.ok)
    (fun _ => true)).2.2.2.2 (fun _ => ⟨by decide, fun _ => rfl⟩) 1 (by decide)

end ReformadoBot
